import Mathlib

/-!
Verification of the post-aggregation and thread-reconstruction pipeline of
`main.py` (Mattermost channel export).

The Python source is shallowly embedded: dictionaries become association
lists that keep CPython's insertion-order semantics (setting an existing key
replaces it in place, a new key is appended at the end), millisecond
timestamps become `Int`, fallible HTTP interaction becomes `Except`-valued
functions over an explicit environment, and `sorted(..., key=...)` (a stable
ascending sort) becomes `List.insertionSort`, which is also stable, hence
extensionally equal to Python's sort for the same key.

Remote I/O is modelled by pure oracles: a `Server` gives the page and thread
endpoints consumed by `get_posts`, and an `Env` gives the per-file HTTP
status sequence (feeding the urllib3 retry adapter model), file-info bodies,
reaction lists and the user cache's `username` resolution.  User and
reaction lookups are modelled as succeeding; file lookups carry the full
status/retry model, which is the error path the code itself handles
(`get_file_info`, main.py lines 306-338).

`datetime.strftime` rendering of a timestamp is abstracted to the decimal
rendering of the underlying millisecond value (the claims never inspect the
rendered text, only which fields appear); `strptime("%Y-%m-%d")`'s local
interpretation of a calendar date is modelled at UTC offset 0 via the
standard civil-calendar day count.
-/

/-- One raw post as returned by the Mattermost API (the dictionary fields
`main.py` reads, with the `.get` defaults already applied). -/
structure RawPost where
  id : String
  message : String
  user_id : String
  create_at : Int
  edit_at : Int
  delete_at : Int
  root_id : String
  parent_id : String
  file_ids : List String
deriving Repr, DecidableEq

/-- The file-info JSON body the server returns for `GET /files/{id}/info`
(the fields `get_file_info` reads, main.py lines 315-329). -/
structure RawFileInfo where
  id : String
  name : String
  size : Int
  mime_type : String
  create_at : Int
  user_id : String
deriving Repr, DecidableEq

/-- The attachment record `get_file_info` builds (main.py lines 315-329). -/
structure FileInfo where
  id : String
  name : String
  size : Int
  mime_type : String
  upload_time : String
  uploader_id : String
  download_url : String
deriving Repr, DecidableEq

/-- One raw reaction from `GET /posts/{id}/reactions` (the fields read at
main.py lines 296-298). -/
structure RawReaction where
  user_id : String
  emoji_name : String
deriving Repr, DecidableEq

/-- One rolled-up reaction entry (main.py lines 300-303). -/
structure ReactionRollup where
  emoji_name : String
  users : List String
  count : Nat
deriving Repr, DecidableEq

/-- The non-recursive fields of the `post_details` dictionary built by
`add_post` (main.py lines 340-356), in source order. -/
structure PostFields where
  id : String
  message : String
  user_id : String
  create_at : Int
  edit_at : Int
  delete_at : Int
  root_id : String
  parent_id : String
  files : List FileInfo
  reactions : List ReactionRollup
deriving Repr, DecidableEq

/-- A fully built `post_details` dictionary: its plain fields plus the
`replies` list, which itself holds such dictionaries. -/
inductive Post where
  | mk (fields : PostFields) (replies : List Post)
deriving Repr

def Post.fields : Post → PostFields
  | .mk f _ => f

def Post.replies : Post → List Post
  | .mk _ rs => rs

def Post.id (p : Post) : String := p.fields.id

def Post.message (p : Post) : String := p.fields.message

def Post.user_id (p : Post) : String := p.fields.user_id

def Post.create_at (p : Post) : Int := p.fields.create_at

def Post.edit_at (p : Post) : Int := p.fields.edit_at

def Post.delete_at (p : Post) : Int := p.fields.delete_at

def Post.root_id (p : Post) : String := p.fields.root_id

def Post.parent_id (p : Post) : String := p.fields.parent_id

def Post.files (p : Post) : List FileInfo := p.fields.files

def Post.reactions (p : Post) : List ReactionRollup := p.fields.reactions

/-- Replace the `replies` entry of a `post_details` dictionary. -/
def Post.setReplies : Post → List Post → Post
  | .mk f _, rs => .mk f rs

/-- One value of the `all_posts` dictionary built by `add_post`: either a
complete `post_details` dictionary, or the placeholder dictionary
`{"replies": [...]}` created at main.py line 361 when a reply arrives
before its root.  (This is the tagged-union reading of the code's
field-presence distinction.) -/
inductive Entry where
  | full (post : Post)
  | stub (replies : List Post)
deriving Repr

/-- Access `entry["replies"]` / `entry.get("replies", [])`: both entry
shapes carry the key. -/
def Entry.replies : Entry → List Post
  | .full p => p.replies
  | .stub rs => rs

/-- `entry.get("id")`: the placeholder has no such key. -/
def Entry.get_id : Entry → Option String
  | .full p => some p.id
  | .stub _ => none

/-- `entry.get("message")`: the placeholder has no such key. -/
def Entry.get_message : Entry → Option String
  | .full p => some p.message
  | .stub _ => none

/-- `entry.get("create_at")`: the placeholder has no such key. -/
def Entry.get_create_at : Entry → Option Int
  | .full p => some p.create_at
  | .stub _ => none

/-- `entry.get("user_id")`: the placeholder has no such key. -/
def Entry.get_user_id : Entry → Option String
  | .full p => some p.user_id
  | .stub _ => none

/-- Python dictionary lookup over the association-list model. -/
def dictLookup {α : Type} : List (String × α) → String → Option α
  | [], _ => none
  | (k2, v) :: rest, k => if k2 = k then some v else dictLookup rest k

/-- Python dictionary assignment: an existing key is replaced in place, a
new key is appended at the end (CPython insertion-order semantics). -/
def dictSet {α : Type} : List (String × α) → String → α → List (String × α)
  | [], k, v => [(k, v)]
  | (k2, v2) :: rest, k, v =>
    if k2 = k then (k, v) :: rest else (k2, v2) :: dictSet rest k v

/-- `key in dict`. -/
def dictHasKey {α : Type} (m : List (String × α)) (k : String) : Bool :=
  (dictLookup m k).isSome

/-- The HTTP statuses the session's retry adapter retries
(`Retry(status_forcelist=[429, 500, 502, 503, 504])`, main.py line 64). -/
def retryableStatus (s : Nat) : Bool :=
  s == 429 || s == 500 || s == 502 || s == 503 || s == 504

/-- A failed request as it surfaces to the Python code: either an
`HTTPError` raised by `raise_for_status` on a non-2xx final response, or
the retry adapter's `RetryError` when the retry budget is exhausted on a
retryable status (the latter is not an `HTTPError` and so is not caught by
`except requests.HTTPError`). -/
inductive ReqFailure where
  | httpError (status : Nat)
  | retryError
deriving Repr, DecidableEq

/-- One `session.get`, driven by the status the server would return on each
successive attempt: a non-retryable status is returned at once; a retryable
status consumes one of the remaining retries, and exhausting the budget
raises `RetryError` (main.py line 64, `Retry(total=5, ...)`). -/
def sessionGetLoop (statusAt : Nat → Nat) : Nat → Nat → Except ReqFailure Nat
  | 0, attempt =>
    if retryableStatus (statusAt attempt) then .error .retryError
    else .ok (statusAt attempt)
  | retriesLeft + 1, attempt =>
    if retryableStatus (statusAt attempt) then
      sessionGetLoop statusAt retriesLeft (attempt + 1)
    else .ok (statusAt attempt)

/-- A `session.get` with the configured budget of 5 retries. -/
def sessionGetStatus (statusAt : Nat → Nat) : Except ReqFailure Nat :=
  sessionGetLoop statusAt 5 0

/-- Rendering of a millisecond timestamp
(`datetime.fromtimestamp(ms / 1000).strftime(...)`), abstracted to the
decimal rendering of the raw value. -/
def formatEpochMs (t : Int) : String := toString t

/-- The pure oracles behind the remote calls `add_post` performs. -/
structure Env where
  usernameOf : String → String
  fileStatusAt : String → Nat → Nat
  fileBodyOf : String → RawFileInfo
  reactionsOf : String → List RawReaction
  apiEndpoint : String

/-- `get_file_info` (main.py lines 306-338): on a 2xx response builds the
attachment record; an `HTTPError` with status 404 is caught and returns
`None`; any other `HTTPError` is logged and re-raised; a `RetryError`
(budget exhausted) is not an `HTTPError` and propagates. -/
def get_file_info (env : Env) (file_id : String) : Except ReqFailure (Option FileInfo) :=
  match sessionGetStatus (env.fileStatusAt file_id) with
  | .error e => .error e
  | .ok s =>
    if s < 400 then
      let raw := env.fileBodyOf file_id
      .ok (some
        { id := raw.id
          name := raw.name
          size := raw.size
          mime_type := raw.mime_type
          upload_time :=
            if raw.create_at ≠ 0 then formatEpochMs raw.create_at else "N/A"
          uploader_id := raw.user_id
          download_url := env.apiEndpoint ++ "/files/" ++ file_id })
    else if s == 404 then .ok none
    else .error (.httpError s)

/-- The `files` comprehension of `add_post` (main.py lines 349-353): each
file id is resolved in order; a `None` result (deleted file) is dropped by
the truthiness guard; a raised error aborts the whole construction. -/
def resolveFiles (env : Env) : List String → Except ReqFailure (List FileInfo)
  | [] => .ok []
  | fid :: rest =>
    match get_file_info env fid with
    | .error e => .error e
    | .ok none => resolveFiles env rest
    | .ok (some fi) =>
      match resolveFiles env rest with
      | .error e => .error e
      | .ok fis => .ok (fi :: fis)

/-- The `defaultdict(list)` grouping loop of `get_reactions` (main.py lines
294-298): usernames append to the list at the reaction's emoji name, a new
emoji name entering the dictionary at the end. -/
def reactionGroups (usernameOf : String → String) :
    List RawReaction → List (String × List String) → List (String × List String)
  | [], acc => acc
  | r :: rest, acc =>
    let users := (dictLookup acc r.emoji_name).getD []
    reactionGroups usernameOf rest
      (dictSet acc r.emoji_name (users ++ [usernameOf r.user_id]))

/-- `get_reactions`'s fold of a flat reaction list into rollups (main.py
lines 294-303). -/
def get_reactions (usernameOf : String → String) (reactions : List RawReaction) :
    List ReactionRollup :=
  (reactionGroups usernameOf reactions []).map
    (fun p => { emoji_name := p.1, users := p.2, count := p.2.length })

/-- The `post_details` dictionary built by `add_post` (main.py lines
340-356), given the already-resolved attachment list. -/
def postDetails (env : Env) (files : List FileInfo) (p : RawPost) : Post :=
  .mk
    { id := p.id
      message := p.message
      user_id := p.user_id
      create_at := p.create_at
      edit_at := p.edit_at
      delete_at := p.delete_at
      root_id := p.root_id
      parent_id := p.parent_id
      files := files
      reactions := get_reactions env.usernameOf (env.reactionsOf p.id) }
    []

/-- The aggregate dictionary `all_posts`: root-post id to entry. -/
abbrev ThreadTree := List (String × Entry)

/-- `all_posts[root_id]["replies"].append(post_details)` (main.py line
359): appends to the `replies` key, which both entry shapes carry. -/
def entryAppendReply (e : Entry) (d : Post) : Entry :=
  match e with
  | .full p => .full (p.setReplies (p.replies ++ [d]))
  | .stub rs => .stub (rs ++ [d])

/-- `all_posts[post["id"]].update(post_details)` (main.py line 364):
`post_details` carries every key of either entry shape — including
`replies`, which it maps to `[]` — so the update replaces the whole entry
with the fresh `post_details`, whatever was there before. -/
def entryUpdate (_e : Entry) (d : Post) : Entry := .full d

/-- The dictionary mutation performed by `add_post` on an already-built
`post_details` (main.py lines 357-366). -/
def addPostPure (m : ThreadTree) (d : Post) : ThreadTree :=
  if d.root_id ≠ "" then
    match dictLookup m d.root_id with
    | some e => dictSet m d.root_id (entryAppendReply e d)
    | none => dictSet m d.root_id (.stub [d])
  else
    match dictLookup m d.id with
    | some e => dictSet m d.id (entryUpdate e d)
    | none => dictSet m d.id (.full d)

/-- `add_post(all_posts, post)` (main.py lines 278-366): resolve the files
(which can raise), build `post_details`, mutate the dictionary. -/
def add_post (env : Env) (m : ThreadTree) (p : RawPost) : Except ReqFailure ThreadTree :=
  match resolveFiles env p.file_ids with
  | .error e => .error e
  | .ok files => .ok (addPostPure m (postDetails env files p))

/-- The aggregation loop of `main` (main.py lines 658-660): fold every
fetched post into `all_posts`. -/
def addPosts (env : Env) : List RawPost → ThreadTree → Except ReqFailure ThreadTree
  | [], m => .ok m
  | p :: rest, m =>
    match add_post env m p with
    | .error e => .error e
    | .ok m2 => addPosts env rest m2

/-- The remote endpoints `get_posts` consumes: the paged channel posts
(each page listed in the server's JSON order, every post keyed by its own
id upstream) and the thread endpoint. -/
structure Server where
  pages : Nat → List RawPost
  thread : String → List RawPost

/-- `post_dict.update(posts)` for one page: the server keys each post by
its id, so the model inserts each post at its own id. -/
def updateKeyedById (d : List (String × RawPost)) (posts : List RawPost) :
    List (String × RawPost) :=
  posts.foldl (fun acc p => dictSet acc p.id p) d

/-- The pagination loop of `get_posts` (main.py lines 206-231): accumulate
pages into `all_posts` and `post_dict`, stopping on an empty page or on a
short page.  The loop has no bound of its own, so it is run on fuel;
`none` means the fuel ran out before the loop ended. -/
def pageSweep (srv : Server) (perPage : Nat) :
    Nat → Nat → List RawPost → List (String × RawPost) →
    Option (List RawPost × List (String × RawPost))
  | 0, _, _, _ => none
  | fuel + 1, page, allPosts, postDict =>
    let posts := srv.pages page
    if posts.isEmpty then some (allPosts, postDict)
    else
      let allPosts2 := allPosts ++ posts
      let postDict2 := updateKeyedById postDict posts
      if posts.length < perPage then some (allPosts2, postDict2)
      else pageSweep srv perPage fuel (page + 1) allPosts2 postDict2

/-- The thread-backfill loop of `get_posts` (main.py lines 234-239): for
every swept post whose `root_id` is non-empty and absent from `post_dict`,
fetch the thread and insert each returned post at its own id. -/
def backfillThreads (srv : Server) (allPosts : List RawPost)
    (postDict : List (String × RawPost)) : List (String × RawPost) :=
  allPosts.foldl
    (fun d p =>
      if p.root_id ≠ "" && !dictHasKey d p.root_id then
        updateKeyedById d (srv.thread p.root_id)
      else d)
    postDict

/-- The sort key of `sorted(post_dict.values(), key=lambda x: x["create_at"])`. -/
def rawPostLE (a b : RawPost) : Prop := a.create_at ≤ b.create_at

instance : DecidableRel rawPostLE := fun a b => Int.decLe a.create_at b.create_at

instance : IsTotal RawPost rawPostLE := ⟨fun a b => Int.le_total a.create_at b.create_at⟩

instance : IsTrans RawPost rawPostLE := ⟨fun _ _ _ => Int.le_trans⟩

/-- Python's `sorted` by `create_at`: a stable ascending sort, modelled by
the (equally stable) insertion sort. -/
def sortPostsByCreateAt (l : List RawPost) : List RawPost :=
  List.insertionSort rawPostLE l

/-- `get_posts(channel_id)` (main.py lines 186-246): page sweep, thread
backfill, then the values of `post_dict` sorted by `create_at`. -/
def get_posts (srv : Server) (fuel : Nat) : Option (List RawPost) :=
  match pageSweep srv 100 fuel 0 [] [] with
  | none => none
  | some (allPosts, postDict) =>
    some (sortPostsByCreateAt ((backfillThreads srv allPosts postDict).map Prod.snd))

/-- A calendar date as parsed by `datetime.strptime(s, "%Y-%m-%d")`. -/
structure CalDate where
  year : Int
  month : Int
  day : Int
deriving Repr, DecidableEq

/-- Days from 1970-01-01 to the given Gregorian civil date (the standard
civil-from-days inverse; exact for the dates the program handles). -/
def daysFromCivil (y m d : Int) : Int :=
  let y2 := if m ≤ 2 then y - 1 else y
  let era := (if y2 ≥ 0 then y2 else y2 - 399) / 400
  let yoe := y2 - era * 400
  let mp := (m + 9) % 12
  let doy := (153 * mp + 2) / 5 + d - 1
  let doe := yoe * 365 + yoe / 4 - yoe / 100 + doy
  era * 146097 + doe - 719468

/-- `int(datetime.strptime(date, "%Y-%m-%d").timestamp() * 1000)` (main.py
lines 251-260): midnight at the start of the given day, in epoch
milliseconds; the local interpretation is modelled at UTC offset 0. -/
def strpDateMs (d : CalDate) : Int :=
  daysFromCivil d.year d.month d.day * 86400000

/-- The first disjunct of the skip test (main.py line 265):
`start_timestamp and post_timestamp < start_timestamp`.  A bound that is
`None` — or whose converted value is the integer 0, which Python treats as
falsy — deactivates the test. -/
def boundLtSkip (bound : Option Int) (t : Int) : Bool :=
  match bound with
  | none => false
  | some s => if s = 0 then false else decide (t < s)

/-- The second disjunct of the skip test (main.py line 266):
`end_timestamp and post_timestamp > end_timestamp`, with the same Python
truthiness reading of the bound. -/
def boundGtSkip (bound : Option Int) (t : Int) : Bool :=
  match bound with
  | none => false
  | some s => if s = 0 then false else decide (t > s)

/-- The retention loop of `filter_posts_by_date` (main.py lines 261-269):
`post["create_at"]` is read unconditionally, so an entry without that key
raises `KeyError`; otherwise the entry is kept unchanged unless a skip
test fires. -/
def filterLoop (st et : Option Int) : List Entry → Except String (List Entry)
  | [] => .ok []
  | e :: rest =>
    match e.get_create_at with
    | none => .error "KeyError: create_at"
    | some t =>
      if boundLtSkip st t || boundGtSkip et t then filterLoop st et rest
      else
        match filterLoop st et rest with
        | .error err => .error err
        | .ok l => .ok (e :: l)

/-- `filter_posts_by_date(posts, start_date, end_date)` (main.py lines
250-274): convert each present bound to the millisecond timestamp of the
start of that day, then run the retention loop. -/
def filter_posts_by_date (posts : List Entry) (start_date end_date : Option CalDate) :
    Except String (List Entry) :=
  filterLoop (start_date.map strpDateMs) (end_date.map strpDateMs) posts

/-- The sort key of `sorted(post.get("replies", []), key=lambda x: x["create_at"])`
used by the renderers (main.py lines 484, 633). -/
def postLE (a b : Post) : Prop := a.create_at ≤ b.create_at

instance : DecidableRel postLE := fun a b => Int.decLe a.create_at b.create_at

instance : IsTotal Post postLE := ⟨fun a b => Int.le_total a.create_at b.create_at⟩

instance : IsTrans Post postLE := ⟨fun _ _ _ => Int.le_trans⟩

/-- The renderers' stable ascending sort of a replies list by `create_at`. -/
def sortRepliesByCreateAt (l : List Post) : List Post :=
  List.insertionSort postLE l

/-- `"Yes" if v > 0 else "No"`. -/
def yesNo (v : Int) : String := if v > 0 then "Yes" else "No"

/-- The attachments cell of a CSV row (main.py lines 555-557). -/
def attachmentsCellCsv (files : List FileInfo) : String :=
  String.intercalate ", "
    (files.map (fun f => f.name ++ " (" ++ toString f.size ++ " bytes)"))

/-- The reactions cell of a CSV row (main.py lines 558-563). -/
def reactionsCell (rs : List ReactionRollup) : String :=
  String.intercalate ", "
    (rs.map (fun r =>
      r.emoji_name ++ " (count: " ++ toString r.count ++ ", users: "
        ++ String.intercalate ", " r.users ++ ")"))

/-- `format_csv_post(post, is_main)` (main.py lines 553-596).  Its first
dictionary access is `post["user_id"]` (for `get_user`), so the
replies-only placeholder raises `KeyError` before any output is formed.
The privileged row carries the extra Deleted cell. -/
def format_csv_post (admin : Bool) (usernameOf : String → String)
    (e : Entry) (is_main : Bool) : Except String (List String) :=
  match e with
  | .stub _ => .error "KeyError: user_id"
  | .full p =>
    let thread_indicator := if p.root_id ≠ "" && !is_main then p.root_id else ""
    if admin then
      .ok [p.id, p.message, usernameOf p.user_id, formatEpochMs p.create_at,
           yesNo p.edit_at, yesNo p.delete_at, attachmentsCellCsv p.files,
           reactionsCell p.reactions, thread_indicator]
    else
      .ok [p.id, p.message, usernameOf p.user_id, formatEpochMs p.create_at,
           yesNo p.edit_at, attachmentsCellCsv p.files,
           reactionsCell p.reactions, thread_indicator]

/-- The CSV header row (main.py lines 603-629): the privileged header has
the Deleted column, the unprivileged one does not. -/
def csv_header (admin : Bool) : List String :=
  if admin then
    ["ID", "Message", "Posted By", "Date", "Edited", "Deleted",
     "Attachments", "Reactions", "Parent"]
  else
    ["ID", "Message", "Posted By", "Date", "Edited",
     "Attachments", "Reactions", "Parent"]

/-- The HTML table header columns (main.py lines 472-475): the privileged
header has the Deleted column, the unprivileged one does not. -/
def html_header_cols (admin : Bool) : List String :=
  if admin then
    ["ID", "Message", "Posted By", "Date", "Edited", "Deleted",
     "Attachments", "Reactions", "Parent"]
  else
    ["ID", "Message", "Posted By", "Date", "Edited",
     "Attachments", "Reactions", "Parent"]

/-- The reply rows of one entry (main.py lines 633-634): each reply —
itself a complete `post_details` dictionary — formatted with
`is_main=False`, in `create_at` order. -/
def csvReplyRows (admin : Bool) (usernameOf : String → String) :
    List Post → Except String (List (List String))
  | [] => .ok []
  | r :: rest =>
    match format_csv_post admin usernameOf (.full r) false with
    | .error err => .error err
    | .ok row =>
      match csvReplyRows admin usernameOf rest with
      | .error err => .error err
      | .ok rows => .ok (row :: rows)

/-- The body rows of the CSV (main.py lines 631-634): for each entry its
main row, then its sorted reply rows. -/
def csvBodyRows (admin : Bool) (usernameOf : String → String) :
    List Entry → Except String (List (List String))
  | [] => .ok []
  | e :: rest =>
    match format_csv_post admin usernameOf e true with
    | .error err => .error err
    | .ok row =>
      match csvReplyRows admin usernameOf (sortRepliesByCreateAt e.replies) with
      | .error err => .error err
      | .ok rrows =>
        match csvBodyRows admin usernameOf rest with
        | .error err => .error err
        | .ok rows => .ok (row :: (rrows ++ rows))

/-- `generate_csv` (main.py lines 550-634), abstracted to the grid of cells
it writes: the privilege-dependent header followed by the body rows. -/
def generate_csv (admin : Bool) (usernameOf : String → String)
    (posts : List Entry) : Except String (List (List String)) :=
  match csvBodyRows admin usernameOf posts with
  | .error err => .error err
  | .ok rows => .ok (csv_header admin :: rows)

/-- The keys `json.dump` serializes for one entry of the export (main.py
lines 638-642 dump the entries exactly as `add_post` built them): a full
`post_details` dictionary always carries `delete_at`; the placeholder
carries only `replies`. -/
def entryJsonKeys : Entry → List String
  | .full _ =>
    ["id", "message", "user_id", "create_at", "edit_at", "delete_at",
     "root_id", "parent_id", "files", "reactions", "replies"]
  | .stub _ => ["replies"]

/-- `generate_json` (main.py lines 638-642), abstracted to the key sets it
writes: the entries are dumped as built, with no dependence on privilege. -/
def generate_json_keys (posts : List Entry) : List (List String) :=
  posts.map entryJsonKeys

/-- How one run of the body of `main`'s try block can end. -/
inductive RunOutcome where
  | success
  | httpError (status : Nat) (body : String)
  | otherError (msg : String)
  | sysExit (code : Nat)
deriving Repr, DecidableEq

/-- What the process observably does after `main` (main.py lines 646-685). -/
structure MainResult where
  errorLog : Option String
  exitCode : Nat
deriving Repr, DecidableEq

/-- The top level of `main` (main.py lines 646-681): an invalid
configuration exits 1 before the try block; inside it, `except
requests.HTTPError` and `except Exception` log the failure and return
normally — so the interpreter then exits with status 0; only `SystemExit`
(raised by the explicit `exit(1)` calls, and not a subclass of
`Exception`) escapes the handlers. -/
def main_top (configOk : Bool) (run : RunOutcome) : MainResult :=
  if !configOk then { errorLog := none, exitCode := 1 }
  else
    match run with
    | .success => { errorLog := none, exitCode := 0 }
    | .httpError s b =>
      { errorLog := some ("HTTP error occurred: " ++ toString s ++ " - " ++ b)
        exitCode := 0 }
    | .otherError m =>
      { errorLog := some ("An error occurred: " ++ m), exitCode := 0 }
    | .sysExit c => { errorLog := none, exitCode := c }

/-- The retention decision of `filter_posts_by_date` for one `create_at`
value, given the converted bounds: the complement of the skip test at
main.py lines 265-267. -/
def retainedAt (st et : Option Int) (t : Int) : Bool :=
  !(boundLtSkip st t || boundGtSkip et t)

/-- An environment in which every remote lookup succeeds trivially: no
attachments exist server-side beyond status 200 with an empty body, no
reactions, usernames resolve to the id itself. -/
def envA : Env where
  usernameOf := fun u => u
  fileStatusAt := fun _ _ => 200
  fileBodyOf := fun _ => { id := "", name := "", size := 0, mime_type := "", create_at := 0, user_id := "" }
  reactionsOf := fun _ => []
  apiEndpoint := "api"

/-- The raw root post of the spec's two-post aggregation example:
`{id: "A", rootId: "", createdAt: 100}`. -/
def rawRootA : RawPost :=
  { id := "A", message := "root", user_id := "u1", create_at := 100,
    edit_at := 0, delete_at := 0, root_id := "", parent_id := "", file_ids := [] }

/-- The raw reply of the spec's two-post aggregation example:
`{id: "B", rootId: "A", createdAt: 200}`. -/
def rawReplyB : RawPost :=
  { id := "B", message := "reply", user_id := "u2", create_at := 200,
    edit_at := 0, delete_at := 0, root_id := "A", parent_id := "", file_ids := [] }

/-- A server whose single page holds only the reply `B`, while the thread
endpoint for `A` returns the full thread (root plus reply): the root lies
outside the paginated window. -/
def srvAB : Server where
  pages := fun n => if n = 0 then [rawReplyB] else []
  thread := fun r => if r = "A" then [rawRootA, rawReplyB] else []

/-- A post created one hour into 2024-01-31 (UTC). -/
def postJan31Late : Post :=
  .mk { id := "p1", message := "late", user_id := "u", create_at := 1706662800000,
        edit_at := 0, delete_at := 0, root_id := "", parent_id := "",
        files := [], reactions := [] } []

/-- An ordinary, never-deleted, never-edited root post. -/
def samplePost : Post :=
  .mk { id := "s1", message := "hello", user_id := "u", create_at := 1705315200000,
        edit_at := 0, delete_at := 0, root_id := "", parent_id := "",
        files := [], reactions := [] } []

/-- An environment for exercising the file-lookup error paths: file `gone`
answers 404, file `bad` answers 500 on every attempt, file `forbidden`
answers 403, and every other file answers 200. -/
def envW : Env where
  usernameOf := fun u => u
  fileStatusAt := fun f _ =>
    if f = "gone" then 404 else if f = "bad" then 500
    else if f = "forbidden" then 403 else 200
  fileBodyOf := fun f => { id := f, name := f, size := 1, mime_type := "text/plain",
                           create_at := 5, user_id := "u" }
  reactionsOf := fun _ => []
  apiEndpoint := "api"

/-- A raw post referencing only the permanently failing file `bad`. -/
def rawWithBadFile : RawPost :=
  { id := "pb", message := "m", user_id := "u", create_at := 1,
    edit_at := 0, delete_at := 0, root_id := "", parent_id := "",
    file_ids := ["bad"] }

/-- A reply dated 2024-02-10, outside a January date window. -/
def febReply : Post :=
  .mk { id := "r1", message := "late reply", user_id := "u2", create_at := 1707523200000,
        edit_at := 0, delete_at := 0, root_id := "s2", parent_id := "",
        files := [], reactions := [] } []

/-- A root post dated 2024-01-15 whose only reply is dated 2024-02-10. -/
def rootJan15WithFebReply : Post :=
  .mk { id := "s2", message := "january root", user_id := "u", create_at := 1705276800000,
        edit_at := 0, delete_at := 0, root_id := "", parent_id := "",
        files := [], reactions := [] } [febReply]

@[simp] theorem Post.fields_mk (f : PostFields) (rs : List Post) :
    (Post.mk f rs).fields = f := rfl

@[simp] theorem Post.replies_mk (f : PostFields) (rs : List Post) :
    (Post.mk f rs).replies = rs := rfl

@[simp] theorem Post.replies_setReplies (p : Post) (rs : List Post) :
    (p.setReplies rs).replies = rs := by cases p; rfl

@[simp] theorem Post.fields_setReplies (p : Post) (rs : List Post) :
    (p.setReplies rs).fields = p.fields := by cases p; rfl

@[simp] theorem Post.create_at_setReplies (p : Post) (rs : List Post) :
    (p.setReplies rs).create_at = p.create_at := by cases p; rfl

@[simp] theorem postDetails_id (env : Env) (fs : List FileInfo) (p : RawPost) :
    (postDetails env fs p).id = p.id := rfl

@[simp] theorem postDetails_root_id (env : Env) (fs : List FileInfo) (p : RawPost) :
    (postDetails env fs p).root_id = p.root_id := rfl

@[simp] theorem postDetails_create_at (env : Env) (fs : List FileInfo) (p : RawPost) :
    (postDetails env fs p).create_at = p.create_at := rfl

@[simp] theorem postDetails_replies (env : Env) (fs : List FileInfo) (p : RawPost) :
    (postDetails env fs p).replies = [] := rfl

@[simp] theorem Entry.replies_full (p : Post) : (Entry.full p).replies = p.replies := rfl

@[simp] theorem Entry.replies_stub (rs : List Post) : (Entry.stub rs).replies = rs := rfl

@[simp] theorem entryAppendReply_replies (e : Entry) (d : Post) :
    (entryAppendReply e d).replies = e.replies ++ [d] := by
  cases e <;> simp [entryAppendReply]

/-- Looking a key up after a `dictSet`: the set key answers the new value,
every other key is untouched. -/
theorem dictLookup_dictSet {α : Type} (m : List (String × α)) (k k' : String) (v : α) :
    dictLookup (dictSet m k v) k' = if k = k' then some v else dictLookup m k' := by
  induction m with
  | nil => by_cases h : k = k' <;> simp [dictSet, dictLookup, h]
  | cons hd tl ih =>
    obtain ⟨k2, v2⟩ := hd
    by_cases h2 : k2 = k
    · subst h2
      by_cases h : k2 = k' <;> simp [dictSet, dictLookup, h]
    · by_cases h : k2 = k'
      · subst h
        have hkk : k ≠ k2 := fun hh => h2 hh.symm
        simp [dictSet, dictLookup, h2, hkk]
      · simp [dictSet, dictLookup, h2, h, ih]

theorem dictLookup_dictSet_self {α : Type} (m : List (String × α)) (k : String) (v : α) :
    dictLookup (dictSet m k v) k = some v := by
  simp [dictLookup_dictSet]

theorem dictLookup_dictSet_ne {α : Type} (m : List (String × α)) (k k' : String) (v : α)
    (h : k ≠ k') : dictLookup (dictSet m k v) k' = dictLookup m k' := by
  simp [dictLookup_dictSet, h]

/-- A successful lookup produces a value of the dictionary. -/
theorem dictLookup_mem_values {α : Type} (m : List (String × α)) (k : String) (v : α)
    (h : dictLookup m k = some v) : v ∈ m.map Prod.snd := by
  induction m with
  | nil => simp [dictLookup] at h
  | cons hd tl ih =>
    obtain ⟨k2, v2⟩ := hd
    by_cases h2 : k2 = k
    · simp [dictLookup, h2] at h
      simp [h]
    · simp [dictLookup, h2] at h
      simp [ih h]

/-- The keys of a dictionary after `dictSet`. -/
theorem keys_dictSet {α : Type} (m : List (String × α)) (k : String) (v : α) :
    (dictSet m k v).map Prod.fst =
      if (dictLookup m k).isSome then m.map Prod.fst else m.map Prod.fst ++ [k] := by
  induction m with
  | nil => simp [dictSet, dictLookup]
  | cons hd tl ih =>
    obtain ⟨k2, v2⟩ := hd
    by_cases h2 : k2 = k
    · simp [dictSet, dictLookup, h2]
    · simp [dictSet, dictLookup, h2, ih]
      split <;> simp

/-- A key that occurs in the key list answers a successful lookup. -/
theorem dictLookup_isSome_of_mem_keys {α : Type} (m : List (String × α)) (k : String)
    (hmem : k ∈ m.map Prod.fst) : (dictLookup m k).isSome := by
  induction m with
  | nil => simp at hmem
  | cons hd tl ih =>
    obtain ⟨k2, v2⟩ := hd
    by_cases h2 : k2 = k
    · simp [dictLookup, h2]
    · simp [h2] at hmem
      rcases hmem with ⟨x, hx⟩ | ⟨x, hx⟩
      · exact absurd rfl h2
      · simpa [dictLookup, h2] using ih (List.mem_map.mpr ⟨(k, x), hx, rfl⟩)

/-- `dictSet` keeps the keys without duplicates. -/
theorem nodup_keys_dictSet {α : Type} (m : List (String × α)) (k : String) (v : α)
    (h : (m.map Prod.fst).Nodup) : ((dictSet m k v).map Prod.fst).Nodup := by
  rw [keys_dictSet]
  split
  · exact h
  · rename_i hnone
    have hk : k ∉ m.map Prod.fst := fun hmem => hnone (dictLookup_isSome_of_mem_keys m k hmem)
    simp [List.nodup_append, h, hk]

/-- In a dictionary built by id-keyed insertion, each value sits at its own
id as key. -/
def keyedById (m : List (String × RawPost)) : Prop :=
  ∀ q ∈ m, (Prod.snd q).id = Prod.fst q

theorem keyedById_dictSet (m : List (String × RawPost)) (p : RawPost)
    (h : keyedById m) : keyedById (dictSet m p.id p) := by
  induction m with
  | nil => intro q hq; simp [dictSet] at hq; subst hq; rfl
  | cons hd tl ih =>
    obtain ⟨k2, v2⟩ := hd
    by_cases h2 : k2 = p.id
    · intro q hq
      simp [dictSet, h2] at hq
      rcases hq with hq | hq
      · subst hq; rfl
      · exact h q (by simp [hq])
    · intro q hq
      simp [dictSet, h2] at hq
      rcases hq with hq | hq
      · subst hq; exact h (k2, v2) (by simp)
      · exact ih (fun r hr => h r (by simp [hr])) q hq

/-- C1: the claim says folding the root/reply pair in either order yields
one entry keyed "A" with replies == [B].  The code refutes the reverse
order: when the reply arrives first, `add_post` creates the placeholder
`{"replies": [B]}`, and the later root runs `all_posts["A"].update(post_details)`
whose `post_details["replies"] == []` — overwriting, not preserving, the
already-attached replies.  The fold therefore yields replies == [B] in the
forward order but replies == [] in the reverse order, contradicting the
claim (and the placeholder-merge design the code's own two-branch structure
is there to implement). -/
theorem C1_reverse_order_merge_drops_replies :
    addPosts envA [rawReplyB, rawRootA] [] =
      .ok [("A", Entry.full (postDetails envA [] rawRootA))] ∧
    addPosts envA [rawRootA, rawReplyB] [] =
      .ok [("A", Entry.full ((postDetails envA [] rawRootA).setReplies
            [postDetails envA [] rawReplyB]))] ∧
    (postDetails envA [] rawRootA).replies = [] :=
  ⟨rfl, rfl, rfl⟩

/-- C6 counterexample: an HTTP failure reaching `main`'s top-level handler
is logged — but the handler returns normally, so the process terminates
with exit status 0, not the non-zero status the claim states. -/
theorem C6_counterexample_http_error_exits_zero :
    main_top true (.httpError 500 "Internal Server Error") =
      { errorLog := some "HTTP error occurred: 500 - Internal Server Error",
        exitCode := 0 } :=
  rfl

/-- C6 amended: every non-retryable HTTP failure (or retry exhaustion)
raised during the export propagates to the single top-level handler in
`main`, which logs it (status code and body); the handler swallows the
exception, so the process then terminates with exit status zero. -/
theorem C6_top_level_handler_logs_and_exits_zero (s : Nat) (b : String) (msg : String) :
    main_top true (.httpError s b) =
      { errorLog := some ("HTTP error occurred: " ++ toString s ++ " - " ++ b),
        exitCode := 0 } ∧
    main_top true (.otherError msg) =
      { errorLog := some ("An error occurred: " ++ msg), exitCode := 0 } :=
  ⟨rfl, rfl⟩

/-- C7 counterexample: `generate_json` dumps the entries exactly as
`add_post` built them and never consults the privilege flag, so even an
unprivileged export's JSON artifact carries the `delete_at` field for an
ordinary, never-deleted post — contradicting "when the acting principal is
unprivileged no output artifact (HTML, CSV, or JSON) contains the
deletion-status column/field". -/
theorem C7_counterexample_json_always_has_delete_at :
    generate_json_keys [Entry.full samplePost] =
      [["id", "message", "user_id", "create_at", "edit_at", "delete_at",
        "root_id", "parent_id", "files", "reactions", "replies"]] ∧
    "delete_at" ∈ entryJsonKeys (Entry.full samplePost) ∧
    samplePost.delete_at = 0 :=
  ⟨rfl, by decide, rfl⟩

/-- C7 amended: the HTML and CSV artifacts contain the deletion-status
column exactly when the principal is privileged (even if no post in the
export is deleted: each privileged row carries the Yes/No Deleted cell),
while the JSON artifact always contains the `delete_at` field for every
complete post, regardless of privilege. -/
theorem C7_deletion_column_gated_except_json (admin : Bool)
    (u : String → String) (p : Post) (b : Bool) :
    ((csv_header admin).contains "Deleted" = admin) ∧
    ((html_header_cols admin).contains "Deleted" = admin) ∧
    (∃ row, format_csv_post admin u (.full p) b = .ok row ∧
      row.length = (if admin then 9 else 8) ∧
      (admin = true → row[5]? = some (yesNo p.delete_at))) ∧
    "delete_at" ∈ entryJsonKeys (.full p) := by
  refine ⟨?_, ?_, ?_, by simp [entryJsonKeys]⟩
  · cases admin <;> decide
  · cases admin <;> decide
  · cases admin <;>
      exact ⟨_, rfl, rfl, by simp⟩

/-- C4 counterexample: with `end = 2024-01-31`, a post created one hour
into 2024-01-31 is excluded, although it was created during the end date's
day — the code converts the end bound to the *start* of that day, not the
end of it. -/
theorem C4_counterexample_end_day_afternoon_excluded :
    filter_posts_by_date [Entry.full postJan31Late]
        (some ⟨2024, 1, 1⟩) (some ⟨2024, 1, 31⟩) = .ok [] ∧
    strpDateMs ⟨2024, 1, 31⟩ ≤ postJan31Late.create_at ∧
    postJan31Late.create_at < strpDateMs ⟨2024, 1, 31⟩ + 86400000 :=
  ⟨rfl, by decide, by decide⟩

/-- C4 amended: `filter_posts_by_date` converts the start bound to the
start of that day and the end bound *also to the start of that day*
(midnight, taken inclusively), retaining a post iff its `create_at` falls
within `[startOfDay(start), startOfDay(end)]`; each bound is independently
optional (only-start means from start onward, only-end means up to the
start of the end day; both absent is the identity).  So a post created
later than midnight of the end date's day is *not* retained.  (The
non-zero hypotheses reflect Python truthiness: a bound converting to
timestamp 0 is treated as absent by the code.) -/
theorem C4_date_window_start_of_end_day (p : Post) (ds de : CalDate)
    (hs : strpDateMs ds ≠ 0) (he : strpDateMs de ≠ 0) :
    (filter_posts_by_date [.full p] (some ds) (some de) =
      .ok (if strpDateMs ds ≤ p.create_at ∧ p.create_at ≤ strpDateMs de
           then [.full p] else [])) ∧
    (filter_posts_by_date [.full p] (some ds) none =
      .ok (if strpDateMs ds ≤ p.create_at then [.full p] else [])) ∧
    (filter_posts_by_date [.full p] none (some de) =
      .ok (if p.create_at ≤ strpDateMs de then [.full p] else [])) ∧
    (filter_posts_by_date [.full p] none none = .ok [.full p]) := by
  refine ⟨?_, ?_, ?_, rfl⟩ <;>
    simp [filter_posts_by_date, filterLoop, boundLtSkip, boundGtSkip,
      Entry.get_create_at, hs, he] <;>
    split_ifs <;> first | rfl | omega

/-- C4 witness: the amended window semantics evaluated at the post created
one hour into 2024-01-31 with the window 2024-01-01 .. 2024-01-31: the
non-zero bound hypotheses hold, and the post is excluded since its
`create_at` exceeds midnight of the end day. -/
theorem C4_date_window_start_of_end_day_witness :
    strpDateMs ⟨2024, 1, 1⟩ ≠ 0 ∧ strpDateMs ⟨2024, 1, 31⟩ ≠ 0 ∧
    ((filter_posts_by_date [.full postJan31Late]
        (some ⟨2024, 1, 1⟩) (some ⟨2024, 1, 31⟩) =
      .ok (if strpDateMs ⟨2024, 1, 1⟩ ≤ postJan31Late.create_at ∧
              postJan31Late.create_at ≤ strpDateMs ⟨2024, 1, 31⟩
           then [.full postJan31Late] else [])) ∧
    (filter_posts_by_date [.full postJan31Late] (some ⟨2024, 1, 1⟩) none =
      .ok (if strpDateMs ⟨2024, 1, 1⟩ ≤ postJan31Late.create_at
           then [.full postJan31Late] else [])) ∧
    (filter_posts_by_date [.full postJan31Late] none (some ⟨2024, 1, 31⟩) =
      .ok (if postJan31Late.create_at ≤ strpDateMs ⟨2024, 1, 31⟩
           then [.full postJan31Late] else [])) ∧
    (filter_posts_by_date [.full postJan31Late] none none =
      .ok [.full postJan31Late])) :=
  ⟨by decide, by decide,
   C4_date_window_start_of_end_day postJan31Late ⟨2024, 1, 1⟩ ⟨2024, 1, 31⟩
     (by decide) (by decide)⟩

/-- C9: `filter_posts_by_date` is `List.filter` of a predicate that reads
only the entry's own `create_at` (provided every entry carries one):
retention is decided solely from each top-level entry's `create_at`, each
retained entry is returned unchanged — its `replies` sequence included —
so replies whose own `create_at` lies outside the window are retained
whenever their root entry is in the window. -/
theorem C9_filter_decides_solely_by_create_at (posts : List Entry)
    (sd ed : Option CalDate)
    (hfull : ∀ e ∈ posts, (e.get_create_at).isSome) :
    filter_posts_by_date posts sd ed =
      .ok (posts.filter (fun e =>
        retainedAt (sd.map strpDateMs) (ed.map strpDateMs)
          ((e.get_create_at).getD 0))) := by
  unfold filter_posts_by_date
  induction posts with
  | nil => rfl
  | cons e rest ih =>
    have hsome := hfull e (by simp)
    obtain ⟨t, ht⟩ := Option.isSome_iff_exists.mp hsome
    have ihr := ih (fun x hx => hfull x (by simp [hx]))
    by_cases hskip : (boundLtSkip (sd.map strpDateMs) t
        || boundGtSkip (ed.map strpDateMs) t) = true
    · simp [filterLoop, ht, hskip, ihr, List.filter_cons, retainedAt]
      rw [Bool.or_eq_true] at hskip
      rcases hskip with h | h <;> simp [h]
    · simp only [Bool.not_eq_true] at hskip
      have hparts := hskip
      simp only [Bool.or_eq_false_iff] at hparts
      simp [filterLoop, ht, hskip, ihr, List.filter_cons, retainedAt,
        hparts.1, hparts.2]

/-- C9 witness: a January root whose only reply is dated 2024-02-10,
filtered with the window 2024-01-01 .. 2024-01-31: the root is retained
unchanged, its out-of-window reply still attached. -/
theorem C9_filter_decides_solely_by_create_at_witness :
    (∀ e ∈ [Entry.full rootJan15WithFebReply], (e.get_create_at).isSome) ∧
    filter_posts_by_date [Entry.full rootJan15WithFebReply]
        (some ⟨2024, 1, 1⟩) (some ⟨2024, 1, 31⟩) =
      .ok ([Entry.full rootJan15WithFebReply].filter (fun e =>
        retainedAt ((some (⟨2024, 1, 1⟩ : CalDate)).map strpDateMs)
          ((some (⟨2024, 1, 31⟩ : CalDate)).map strpDateMs)
          ((e.get_create_at).getD 0))) ∧
    ([Entry.full rootJan15WithFebReply].filter (fun e =>
        retainedAt ((some (⟨2024, 1, 1⟩ : CalDate)).map strpDateMs)
          ((some (⟨2024, 1, 31⟩ : CalDate)).map strpDateMs)
          ((e.get_create_at).getD 0))) = [Entry.full rootJan15WithFebReply] ∧
    (Entry.full rootJan15WithFebReply).replies = [febReply] ∧
    strpDateMs ⟨2024, 1, 31⟩ < febReply.create_at :=
  ⟨by simp [Entry.get_create_at],
   C9_filter_decides_solely_by_create_at _ _ _ (by simp [Entry.get_create_at]),
   rfl, rfl, by decide⟩

/-- C10: the replies-only placeholder `add_post` creates when a reply's
root is absent carries only the `replies` key — no id, message, create_at
or user_id — and a collection containing such a stub makes
`filter_posts_by_date` fail with the `create_at` key error (whatever
bounds are supplied, here with at least one present) and makes
`format_csv_post` fail with the `user_id` key error instead of producing
output. -/
theorem C10_placeholder_stub_lacks_fields_and_fails (m : ThreadTree) (d : Post)
    (hroot : d.root_id ≠ "") (habs : dictLookup m d.root_id = none)
    (l1 l2 : List Entry) (rs : List Post) (sd ed : Option CalDate)
    (_hb : sd.isSome ∨ ed.isSome)
    (hfull1 : ∀ e ∈ l1, (e.get_create_at).isSome)
    (u : String → String) (b : Bool) :
    dictLookup (addPostPure m d) d.root_id = some (.stub [d]) ∧
    (Entry.stub rs).get_id = none ∧
    (Entry.stub rs).get_message = none ∧
    (Entry.stub rs).get_create_at = none ∧
    (Entry.stub rs).get_user_id = none ∧
    filter_posts_by_date (l1 ++ .stub rs :: l2) sd ed =
      .error "KeyError: create_at" ∧
    format_csv_post b u (.stub rs) true = .error "KeyError: user_id" := by
  refine ⟨?_, rfl, rfl, rfl, rfl, ?_, rfl⟩
  · simp [addPostPure, hroot, habs, dictLookup_dictSet_self]
  · unfold filter_posts_by_date
    induction l1 with
    | nil => simp [filterLoop, Entry.get_create_at]
    | cons e rest ih =>
      have hsome := hfull1 e (by simp)
      obtain ⟨t, ht⟩ := Option.isSome_iff_exists.mp hsome
      have ihr := ih (fun x hx => hfull1 x (by simp [hx]))
      simp only [List.cons_append, filterLoop, ht]
      by_cases hskip : (boundLtSkip (sd.map strpDateMs) t
          || boundGtSkip (ed.map strpDateMs) t) = true
      · simp [hskip, ihr]
      · simp only [Bool.not_eq_true] at hskip
        simp [hskip, ihr]

/-- C10 witness: the reply `B` folded into an empty tree leaves the stub
`{"replies": [B]}` at key "A"; filtering a list holding a stub (start
bound 2024-01-01 present) raises the `create_at` key error, and CSV
formatting of the stub raises the `user_id` key error. -/
theorem C10_placeholder_stub_lacks_fields_and_fails_witness :
    dictLookup (addPostPure [] (postDetails envA [] rawReplyB))
        (postDetails envA [] rawReplyB).root_id =
      some (.stub [postDetails envA [] rawReplyB]) ∧
    (Entry.stub [postDetails envA [] rawReplyB]).get_id = none ∧
    (Entry.stub [postDetails envA [] rawReplyB]).get_message = none ∧
    (Entry.stub [postDetails envA [] rawReplyB]).get_create_at = none ∧
    (Entry.stub [postDetails envA [] rawReplyB]).get_user_id = none ∧
    filter_posts_by_date
        ([Entry.full samplePost] ++
          .stub [postDetails envA [] rawReplyB] :: [])
        (some ⟨2024, 1, 1⟩) none =
      .error "KeyError: create_at" ∧
    format_csv_post false (fun s => s)
        (.stub [postDetails envA [] rawReplyB]) true =
      .error "KeyError: user_id" :=
  C10_placeholder_stub_lacks_fields_and_fails [] (postDetails envA [] rawReplyB)
    (by decide) rfl [Entry.full samplePost] [] [postDetails envA [] rawReplyB]
    (some ⟨2024, 1, 1⟩) none (Or.inl rfl)
    (by simp [Entry.get_create_at]) (fun s => s) false

/-- C5: a 404 on the file-info lookup yields absence — `get_file_info`
returns `None` and the attachment is simply dropped from the resolved
sequence, the run continuing — while any other non-2xx final response
raises an `HTTPError` that propagates, and a 500 repeated past the retry
budget raises the adapter's retry exhaustion, aborting `add_post` (and so
the run). -/
theorem C5_file_lookup_404_absent_other_errors_raise (env : Env) (fid : String) :
    (sessionGetStatus (env.fileStatusAt fid) = .ok 404 →
      get_file_info env fid = .ok none ∧
      ∀ l1 l2, resolveFiles env (l1 ++ fid :: l2) = resolveFiles env (l1 ++ l2)) ∧
    (∀ s, sessionGetStatus (env.fileStatusAt fid) = .ok s → 400 ≤ s → s ≠ 404 →
      get_file_info env fid = .error (.httpError s)) ∧
    ((∀ n, env.fileStatusAt fid n = 500) →
      get_file_info env fid = .error .retryError ∧
      ∀ (m : ThreadTree) (p : RawPost), p.file_ids = [fid] →
        add_post env m p = .error .retryError) := by
  refine ⟨?_, ?_, ?_⟩
  · intro h404
    have hg : get_file_info env fid = .ok none := by
      simp [get_file_info, h404]
    refine ⟨hg, ?_⟩
    intro l1 l2
    induction l1 with
    | nil => simp [resolveFiles, hg]
    | cons f rest ih =>
      cases hgf : get_file_info env f with
      | error e => simp [resolveFiles, hgf]
      | ok o =>
        cases o with
        | none => simp [resolveFiles, hgf, ih]
        | some fi => simp [resolveFiles, hgf, ih]
  · intro s hs h400 h404
    have hlt : ¬ s < 400 := by omega
    have hbeq : (s == 404) = false := by simp [h404]
    simp [get_file_info, hs, hlt, hbeq]
  · intro h
    have hr : retryableStatus 500 = true := rfl
    have hsess : sessionGetStatus (env.fileStatusAt fid) = .error .retryError := by
      simp [sessionGetStatus, sessionGetLoop, h, hr]
    have hgfi : get_file_info env fid = .error .retryError := by
      simp [get_file_info, hsess]
    refine ⟨hgfi, ?_⟩
    intro m p hp
    simp [add_post, resolveFiles, hp, hgfi]

/-- C5 witness: in the concrete environment `envW`, the deleted file
`gone` (404) resolves to absence and drops out of the attachment sequence,
the file `forbidden` (403) raises an HTTP error, and the file `bad` (500 on
every attempt) exhausts the retry budget and aborts `add_post`. -/
theorem C5_file_lookup_404_absent_other_errors_raise_witness :
    get_file_info envW "gone" = .ok none ∧
    resolveFiles envW (["f1"] ++ "gone" :: ["f2"]) =
      resolveFiles envW (["f1"] ++ ["f2"]) ∧
    get_file_info envW "forbidden" = .error (.httpError 403) ∧
    get_file_info envW "bad" = .error .retryError ∧
    add_post envW [] rawWithBadFile = .error .retryError :=
  ⟨((C5_file_lookup_404_absent_other_errors_raise envW "gone").1 rfl).1,
   ((C5_file_lookup_404_absent_other_errors_raise envW "gone").1 rfl).2 ["f1"] ["f2"],
   (C5_file_lookup_404_absent_other_errors_raise envW "forbidden").2.1 403 rfl
     (by decide) (by decide),
   ((C5_file_lookup_404_absent_other_errors_raise envW "bad").2.2 (fun _ => rfl)).1,
   ((C5_file_lookup_404_absent_other_errors_raise envW "bad").2.2 (fun _ => rfl)).2
     [] rawWithBadFile rfl⟩

/-- A successful lookup witnesses membership of the association list. -/
theorem dictLookup_eq_some_mem {α : Type} (m : List (String × α)) (k : String) (v : α)
    (h : dictLookup m k = some v) : (k, v) ∈ m := by
  induction m with
  | nil => simp [dictLookup] at h
  | cons hd tl ih =>
    obtain ⟨k2, v2⟩ := hd
    by_cases h2 : k2 = k
    · subst h2
      simp [dictLookup] at h
      simp [h]
    · simp [dictLookup, h2] at h
      simp [ih h]

/-- With duplicate-free keys, membership determines the lookup. -/
theorem mem_dictLookup_of_nodup {α : Type} (m : List (String × α)) (k : String) (v : α)
    (hn : (m.map Prod.fst).Nodup) (h : (k, v) ∈ m) : dictLookup m k = some v := by
  induction m with
  | nil => simp at h
  | cons hd tl ih =>
    obtain ⟨k2, v2⟩ := hd
    rcases List.mem_cons.mp h with h1 | h1
    · cases h1
      simp [dictLookup]
    · by_cases h2 : k2 = k
      · subst h2
        exfalso
        have hmem : k2 ∈ tl.map Prod.fst := List.mem_map.mpr ⟨(k2, v), h1, rfl⟩
        simp at hn
        exact absurd hmem (by simpa using hn.1)
      · simp [dictLookup, h2]
        exact ih hn.of_cons h1

/-- Folding further reactions over an accumulator appends each matching
reaction's username, in list order, to an already-present emoji's users. -/
theorem reactionGroups_lookup_some (u : String → String) (rs : List RawReaction) :
    ∀ (acc : List (String × List String)) (e : String) (us : List String),
    dictLookup acc e = some us →
    dictLookup (reactionGroups u rs acc) e =
      some (us ++ (rs.filter (fun x => x.emoji_name = e)).map (fun x => u x.user_id)) := by
  induction rs with
  | nil => intro acc e us h; simp [reactionGroups, h]
  | cons r rest ih =>
    intro acc e us h
    by_cases hre : r.emoji_name = e
    · subst hre
      have hacc : dictLookup (dictSet acc r.emoji_name
          ((dictLookup acc r.emoji_name).getD [] ++ [u r.user_id])) r.emoji_name =
          some (us ++ [u r.user_id]) := by
        simp [dictLookup_dictSet_self, h]
      have hres := ih _ r.emoji_name (us ++ [u r.user_id]) hacc
      simp [reactionGroups, hres, List.filter_cons]
    · have hacc : dictLookup (dictSet acc r.emoji_name
          ((dictLookup acc r.emoji_name).getD [] ++ [u r.user_id])) e =
          some us := by
        rw [dictLookup_dictSet_ne _ _ _ _ hre, h]
      have hres := ih _ e us hacc
      simp [reactionGroups, hres, List.filter_cons, hre]

/-- For an emoji absent from the accumulator, the fold produces exactly the
matching reactions' usernames in list order — or no entry at all if the
emoji never occurs. -/
theorem reactionGroups_lookup_none (u : String → String) (rs : List RawReaction) :
    ∀ (acc : List (String × List String)) (e : String),
    dictLookup acc e = none →
    dictLookup (reactionGroups u rs acc) e =
      if rs.any (fun x => x.emoji_name = e) then
        some ((rs.filter (fun x => x.emoji_name = e)).map (fun x => u x.user_id))
      else none := by
  induction rs with
  | nil => intro acc e h; simp [reactionGroups, h]
  | cons r rest ih =>
    intro acc e h
    by_cases hre : r.emoji_name = e
    · subst hre
      have hacc : dictLookup (dictSet acc r.emoji_name
          ((dictLookup acc r.emoji_name).getD [] ++ [u r.user_id])) r.emoji_name =
          some [u r.user_id] := by
        simp [dictLookup_dictSet_self, h]
      have hres := reactionGroups_lookup_some u rest _ r.emoji_name [u r.user_id] hacc
      simp [reactionGroups, hres, List.filter_cons, List.any_cons]
    · have hacc : dictLookup (dictSet acc r.emoji_name
          ((dictLookup acc r.emoji_name).getD [] ++ [u r.user_id])) e = none := by
        rw [dictLookup_dictSet_ne _ _ _ _ hre, h]
      have hres := ih _ e hacc
      simp [reactionGroups, hres, List.filter_cons, List.any_cons, hre]

/-- The grouping fold keeps the emoji keys duplicate-free. -/
theorem reactionGroups_nodup_keys (u : String → String) (rs : List RawReaction) :
    ∀ (acc : List (String × List String)), ((acc.map Prod.fst).Nodup) →
    ((reactionGroups u rs acc).map Prod.fst).Nodup := by
  induction rs with
  | nil => intro acc h; simpa [reactionGroups] using h
  | cons r rest ih =>
    intro acc h
    exact ih _ (nodup_keys_dictSet _ _ _ h)

/-- C8: `get_reactions` folds any flat reaction list (duplicate emoji
names from different users included) into rollups with at most one rollup
per distinct emoji name, every rollup's count equal to the length of its
users sequence, and each rollup's users being exactly the usernames of
that emoji's reactions in first-seen (list) order; every reaction in the
input is represented by some rollup. -/
theorem C8_reaction_rollup_grouping (u : String → String) (rs : List RawReaction) :
    ((get_reactions u rs).map ReactionRollup.emoji_name).Nodup ∧
    (∀ r ∈ get_reactions u rs, r.count = r.users.length) ∧
    (∀ r ∈ get_reactions u rs,
      r.users = (rs.filter (fun x => x.emoji_name = r.emoji_name)).map
        (fun x => u x.user_id)) ∧
    (∀ x ∈ rs, ∃ r ∈ get_reactions u rs, r.emoji_name = x.emoji_name) := by
  have hkeys : ((reactionGroups u rs []).map Prod.fst).Nodup :=
    reactionGroups_nodup_keys u rs [] (by simp)
  refine ⟨?_, ?_, ?_, ?_⟩
  · have : (get_reactions u rs).map ReactionRollup.emoji_name =
        (reactionGroups u rs []).map Prod.fst := by
      simp [get_reactions, List.map_map]
    rw [this]
    exact hkeys
  · intro r hr
    obtain ⟨p, hp, hpr⟩ := List.mem_map.mp hr
    subst hpr
    rfl
  · intro r hr
    obtain ⟨p, hp, hpr⟩ := List.mem_map.mp hr
    subst hpr
    obtain ⟨k, us⟩ := p
    have hlk : dictLookup (reactionGroups u rs []) k = some us :=
      mem_dictLookup_of_nodup _ _ _ hkeys hp
    have hnone : dictLookup ([] : List (String × List String)) k = none := rfl
    have := reactionGroups_lookup_none u rs [] k hnone
    rw [this] at hlk
    by_cases hany : rs.any (fun x => x.emoji_name = k)
    · simp [hany] at hlk
      simpa using hlk.symm
    · simp [hany] at hlk
  · intro x hx
    have hany : rs.any (fun y => y.emoji_name = x.emoji_name) := by
      exact List.any_eq_true.mpr ⟨x, hx, by simp⟩
    have hnone : dictLookup ([] : List (String × List String)) x.emoji_name = none := rfl
    have hlk := reactionGroups_lookup_none u rs [] x.emoji_name hnone
    rw [if_pos hany] at hlk
    have hmem := dictLookup_eq_some_mem _ _ _ hlk
    refine ⟨{ emoji_name := x.emoji_name,
              users := (rs.filter (fun y => y.emoji_name = x.emoji_name)).map
                (fun y => u y.user_id),
              count := ((rs.filter (fun y => y.emoji_name = x.emoji_name)).map
                (fun y => u y.user_id)).length }, ?_, rfl⟩
    exact List.mem_map.mpr ⟨_, hmem, rfl⟩

/-- C8 witness: a reaction list where two different users use the same
emoji folds into one rollup per emoji with count equal to the number of
users, users in first-seen order. -/
theorem C8_reaction_rollup_grouping_witness :
    get_reactions (fun s => s)
        [⟨"u1", "smile"⟩, ⟨"u2", "smile"⟩, ⟨"u3", "frown"⟩] =
      [{ emoji_name := "smile", users := ["u1", "u2"], count := 2 },
       { emoji_name := "frown", users := ["u3"], count := 1 }] ∧
    (((get_reactions (fun s => s)
        [⟨"u1", "smile"⟩, ⟨"u2", "smile"⟩, ⟨"u3", "frown"⟩]).map
          ReactionRollup.emoji_name).Nodup ∧
     (∀ r ∈ get_reactions (fun s => s)
        [⟨"u1", "smile"⟩, ⟨"u2", "smile"⟩, ⟨"u3", "frown"⟩],
        r.count = r.users.length) ∧
     (∀ r ∈ get_reactions (fun s => s)
        [⟨"u1", "smile"⟩, ⟨"u2", "smile"⟩, ⟨"u3", "frown"⟩],
        r.users = (([⟨"u1", "smile"⟩, ⟨"u2", "smile"⟩, ⟨"u3", "frown"⟩] :
            List RawReaction).filter
          (fun x => x.emoji_name = r.emoji_name)).map
            (fun x => (fun s => s) x.user_id)) ∧
     (∀ x ∈ ([⟨"u1", "smile"⟩, ⟨"u2", "smile"⟩, ⟨"u3", "frown"⟩] :
          List RawReaction),
        ∃ r ∈ get_reactions (fun s => s)
          [⟨"u1", "smile"⟩, ⟨"u2", "smile"⟩, ⟨"u3", "frown"⟩],
          r.emoji_name = x.emoji_name)) :=
  ⟨by decide,
   C8_reaction_rollup_grouping (fun s => s)
     [⟨"u1", "smile"⟩, ⟨"u2", "smile"⟩, ⟨"u3", "frown"⟩]⟩

/-- `get_posts` returns the backfilled collection's values sorted by
`create_at` ascending. -/
theorem get_posts_sorted (srv : Server) (fuel : Nat) (out : List RawPost)
    (h : get_posts srv fuel = some out) : List.Sorted rawPostLE out := by
  unfold get_posts at h
  cases hps : pageSweep srv 100 fuel 0 [] [] with
  | none => rw [hps] at h; simp at h
  | some pr =>
    obtain ⟨allPosts, postDict⟩ := pr
    rw [hps] at h
    simp only [Option.some.injEq] at h
    subst h
    exact List.sorted_insertionSort rawPostLE _

/-- Folding a `create_at`-sorted raw post list with `add_post` keeps every
entry's replies list sorted by `create_at`: replies are only ever appended
in fold order, the root branch resets replies to `[]`, and a placeholder
starts as a singleton. -/
theorem addPosts_replies_sorted (env : Env) :
    ∀ (l : List RawPost) (m0 m : ThreadTree),
    List.Sorted rawPostLE l →
    (∀ k e, dictLookup m0 k = some e → List.Sorted postLE e.replies ∧
      ∀ x ∈ e.replies, ∀ q ∈ l, x.create_at ≤ q.create_at) →
    addPosts env l m0 = .ok m →
    ∀ k e, dictLookup m k = some e → List.Sorted postLE e.replies := by
  intro l
  induction l with
  | nil =>
    intro m0 m _ hinv hfold
    simp only [addPosts, Except.ok.injEq] at hfold
    subst hfold
    exact fun k e h => (hinv k e h).1
  | cons p rest ih =>
    intro m0 m hsort hinv hfold
    cases hstep : add_post env m0 p with
    | error err => simp [addPosts, hstep] at hfold
    | ok m1 =>
      simp only [addPosts, hstep] at hfold
      refine ih m1 m hsort.of_cons ?_ hfold
      have hple : ∀ q ∈ rest, p.create_at ≤ q.create_at := by
        intro q hq
        exact List.rel_of_sorted_cons hsort q hq
      obtain ⟨files, hres, hm1⟩ :
          ∃ fs, resolveFiles env p.file_ids = .ok fs ∧
            m1 = addPostPure m0 (postDetails env fs p) := by
        unfold add_post at hstep
        cases hr : resolveFiles env p.file_ids with
        | error e2 => rw [hr] at hstep; simp at hstep
        | ok fs =>
          rw [hr] at hstep
          simp only [Except.ok.injEq] at hstep
          exact ⟨fs, rfl, hstep.symm⟩
      subst hm1
      intro k e hk
      unfold addPostPure at hk
      by_cases hrid : (postDetails env files p).root_id ≠ ""
      · rw [if_pos hrid] at hk
        cases hlk : dictLookup m0 (postDetails env files p).root_id with
        | some e0 =>
          rw [hlk] at hk
          rw [dictLookup_dictSet] at hk
          by_cases hkey : (postDetails env files p).root_id = k
          · rw [if_pos hkey] at hk
            injection hk with hk
            subst hk
            obtain ⟨hsorted0, hbound0⟩ := hinv _ e0 hlk
            constructor
            · rw [entryAppendReply_replies]
              refine List.pairwise_append.mpr ⟨hsorted0, by simp, ?_⟩
              intro x hx y hy
              simp only [List.mem_singleton] at hy
              subst hy
              show x.create_at ≤ (postDetails env files p).create_at
              simp only [postDetails_create_at]
              exact hbound0 x hx p (by simp)
            · intro x hx q hq
              rw [entryAppendReply_replies] at hx
              rcases List.mem_append.mp hx with hx | hx
              · exact hbound0 x hx q (by simp [hq])
              · simp only [List.mem_singleton] at hx
                subst hx
                simp only [postDetails_create_at]
                exact hple q hq
          · rw [if_neg hkey] at hk
            obtain ⟨hsorted0, hbound0⟩ := hinv _ e hk
            exact ⟨hsorted0, fun x hx q hq => hbound0 x hx q (by simp [hq])⟩
        | none =>
          rw [hlk] at hk
          rw [dictLookup_dictSet] at hk
          by_cases hkey : (postDetails env files p).root_id = k
          · rw [if_pos hkey] at hk
            injection hk with hk
            subst hk
            refine ⟨by simp, ?_⟩
            intro x hx q hq
            simp only [Entry.replies_stub, List.mem_singleton] at hx
            subst hx
            simp only [postDetails_create_at]
            exact hple q hq
          · rw [if_neg hkey] at hk
            obtain ⟨hsorted0, hbound0⟩ := hinv _ e hk
            exact ⟨hsorted0, fun x hx q hq => hbound0 x hx q (by simp [hq])⟩
      · rw [if_neg hrid] at hk
        cases hlk : dictLookup m0 (postDetails env files p).id with
        | some e0 =>
          rw [hlk] at hk
          rw [dictLookup_dictSet] at hk
          by_cases hkey : (postDetails env files p).id = k
          · rw [if_pos hkey] at hk
            injection hk with hk
            subst hk
            exact ⟨by simp [entryUpdate], by simp [entryUpdate]⟩
          · rw [if_neg hkey] at hk
            obtain ⟨hsorted0, hbound0⟩ := hinv _ e hk
            exact ⟨hsorted0, fun x hx q hq => hbound0 x hx q (by simp [hq])⟩
        | none =>
          rw [hlk] at hk
          rw [dictLookup_dictSet] at hk
          by_cases hkey : (postDetails env files p).id = k
          · rw [if_pos hkey] at hk
            injection hk with hk
            subst hk
            exact ⟨by simp, by simp⟩
          · rw [if_neg hkey] at hk
            obtain ⟨hsorted0, hbound0⟩ := hinv _ e hk
            exact ⟨hsorted0, fun x hx q hq => hbound0 x hx q (by simp [hq])⟩

/-- C2: for every channel the pipeline completes on (the pagination loop
ends, the fold succeeds) and every entry of the resulting mapping, the
entry's replies sequence is sorted by `create_at` ascending: `get_posts`
sorts the collection before the fold, and the fold appends replies in that
order. -/
theorem C2_pipeline_replies_sorted (srv : Server) (env : Env) (fuel : Nat)
    (out : List RawPost) (m : ThreadTree)
    (hget : get_posts srv fuel = some out) (_hne : out ≠ [])
    (hfold : addPosts env out [] = .ok m) :
    ∀ k e, dictLookup m k = some e → List.Sorted postLE e.replies :=
  addPosts_replies_sorted env out [] m (get_posts_sorted srv fuel out hget)
    (fun _ _ h => by simp [dictLookup] at h) hfold

/-- C2 witness: the one-page channel `srvAB` (whose thread backfill pulls
in the root `A`): the pipeline yields the mapping with the single thread
`A`, and every entry's replies are sorted. -/
theorem C2_pipeline_replies_sorted_witness :
    get_posts srvAB 1 = some [rawRootA, rawReplyB] ∧
    ([rawRootA, rawReplyB] : List RawPost) ≠ [] ∧
    addPosts envA [rawRootA, rawReplyB] [] =
      .ok [("A", Entry.full ((postDetails envA [] rawRootA).setReplies
        [postDetails envA [] rawReplyB]))] ∧
    (∀ k e, dictLookup [("A", Entry.full ((postDetails envA [] rawRootA).setReplies
        [postDetails envA [] rawReplyB]))] k = some e →
      List.Sorted postLE e.replies) :=
  ⟨rfl, by simp, rfl,
   C2_pipeline_replies_sorted srvAB envA 1 [rawRootA, rawReplyB] _ rfl (by simp) rfl⟩

/-- `dictSet` never removes a key. -/
theorem dictHasKey_dictSet_of {α : Type} (d : List (String × α)) (k k2 : String) (v : α)
    (h : dictHasKey d k = true) : dictHasKey (dictSet d k2 v) k = true := by
  simp only [dictHasKey, dictLookup_dictSet]
  split <;> simp_all [dictHasKey]

/-- `dictSet` establishes its own key. -/
theorem dictHasKey_dictSet_self {α : Type} (d : List (String × α)) (k : String) (v : α) :
    dictHasKey (dictSet d k v) k = true := by
  simp [dictHasKey, dictLookup_dictSet_self]

/-- Merging a post batch never removes a key. -/
theorem updateKeyedById_hasKey_of (d : List (String × RawPost)) (ts : List RawPost)
    (k : String) (h : dictHasKey d k = true) :
    dictHasKey (updateKeyedById d ts) k = true := by
  induction ts generalizing d with
  | nil => exact h
  | cons t rest ih => exact ih _ (dictHasKey_dictSet_of _ _ _ _ h)

/-- Merging a batch containing a post with the sought id establishes that key. -/
theorem updateKeyedById_hasKey_hit (d : List (String × RawPost)) (ts : List RawPost)
    (t : RawPost) (k : String) (hmem : t ∈ ts) (hid : t.id = k) :
    dictHasKey (updateKeyedById d ts) k = true := by
  induction ts generalizing d with
  | nil => simp at hmem
  | cons t2 rest ih =>
    rcases List.mem_cons.mp hmem with h1 | h1
    · subst h1
      subst hid
      exact updateKeyedById_hasKey_of (dictSet d t.id t) rest t.id
        (dictHasKey_dictSet_self d t.id t)
    · exact ih (dictSet d t2.id t2) h1

/-- After merging a batch, any value at a key came from the original
dictionary or from a batch post with that id. -/
theorem updateKeyedById_lookup_source (d : List (String × RawPost)) (ts : List RawPost)
    (k : String) (v : RawPost)
    (h : dictLookup (updateKeyedById d ts) k = some v) :
    dictLookup d k = some v ∨ ∃ t ∈ ts, t.id = k ∧ v = t := by
  induction ts generalizing d with
  | nil => exact Or.inl h
  | cons t rest ih =>
    rcases ih _ h with h1 | ⟨t2, ht2, hid, hv⟩
    · rw [dictLookup_dictSet] at h1
      split at h1
      · rename_i heq
        exact Or.inr ⟨t, by simp, heq, by injection h1 with h1; exact h1.symm⟩
      · exact Or.inl h1
    · exact Or.inr ⟨t2, by simp [ht2], hid, hv⟩

/-- A stored value survives merging a batch whose posts with its id all
equal it. -/
theorem updateKeyedById_lookup_keep (d : List (String × RawPost)) (ts : List RawPost)
    (k : String) (v : RawPost) (h : dictLookup d k = some v)
    (hcons : ∀ t ∈ ts, t.id = k → t = v) :
    dictLookup (updateKeyedById d ts) k = some v := by
  induction ts generalizing d with
  | nil => exact h
  | cons t rest ih =>
    refine ih _ ?_ (fun t2 ht2 => hcons t2 (by simp [ht2]))
    rw [dictLookup_dictSet]
    split
    · rename_i heq
      rw [hcons t (by simp) heq]
    · exact h

/-- Merging a batch keeps the keys duplicate-free. -/
theorem updateKeyedById_nodup_keys (d : List (String × RawPost)) (ts : List RawPost)
    (h : (d.map Prod.fst).Nodup) :
    ((updateKeyedById d ts).map Prod.fst).Nodup := by
  induction ts generalizing d with
  | nil => exact h
  | cons t rest ih => exact ih _ (nodup_keys_dictSet _ _ _ h)

/-- Merging a batch keyed by id keeps every value at its own id. -/
theorem updateKeyedById_keyedById (d : List (String × RawPost)) (ts : List RawPost)
    (h : keyedById d) : keyedById (updateKeyedById d ts) := by
  induction ts generalizing d with
  | nil => exact h
  | cons t rest ih => exact ih _ (keyedById_dictSet _ _ h)

/-- The thread backfill never removes a key. -/
theorem backfillThreads_hasKey_of (srv : Server) (allPosts : List RawPost)
    (d : List (String × RawPost)) (k : String) (h : dictHasKey d k = true) :
    dictHasKey (backfillThreads srv allPosts d) k = true := by
  induction allPosts generalizing d with
  | nil => exact h
  | cons q rest ih =>
    simp only [backfillThreads, List.foldl_cons]
    split
    · exact ih _ (updateKeyedById_hasKey_of _ _ _ h)
    · exact ih _ h

/-- After the backfill, the root id of any swept reply is a key of the
collection, provided the thread endpoint for it returns a post carrying
that id: the no-orphan property of the backfill loop. -/
theorem backfillThreads_root_key (srv : Server) (allPosts : List RawPost)
    (d : List (String × RawPost)) (p : RawPost) (R : String)
    (hmem : p ∈ allPosts) (hroot : p.root_id = R) (hRne : R ≠ "")
    (hthread : ∃ t ∈ srv.thread R, t.id = R) :
    dictHasKey (backfillThreads srv allPosts d) R = true := by
  induction allPosts generalizing d with
  | nil => simp at hmem
  | cons q rest ih =>
    rcases List.mem_cons.mp hmem with h1 | h1
    · subst h1
      simp only [backfillThreads, List.foldl_cons]
      by_cases hk : dictHasKey d p.root_id = true
      · rw [hroot] at hk
        split
        · exact backfillThreads_hasKey_of srv rest _ R
            (updateKeyedById_hasKey_of _ _ _ hk)
        · exact backfillThreads_hasKey_of srv rest _ R hk
      · have hguard : (p.root_id ≠ "" && !dictHasKey d p.root_id) = true := by
          simp only [Bool.and_eq_true, bne_iff_ne, Bool.not_eq_true']
          refine ⟨by rw [hroot]; exact decide_eq_true hRne, by simpa using hk⟩
        rw [if_pos hguard]
        obtain ⟨t, ht, hid⟩ := hthread
        exact backfillThreads_hasKey_of srv rest _ R
          (updateKeyedById_hasKey_hit _ _ t R (by rwa [hroot]) hid)
    · simp only [backfillThreads, List.foldl_cons]
      split
      · exact ih _ h1
      · exact ih _ h1

/-- Any property holding of the value initially stored at `R` (if any) and
of every thread post whose id is `R` holds of the value stored at `R`
after the backfill. -/
theorem backfillThreads_lookup_pred (srv : Server) (allPosts : List RawPost)
    (P : RawPost → Prop) (R : String)
    (hthreadP : ∀ r2 t, t ∈ srv.thread r2 → t.id = R → P t) :
    ∀ (d : List (String × RawPost)),
    (∀ v, dictLookup d R = some v → P v) →
    ∀ v, dictLookup (backfillThreads srv allPosts d) R = some v → P v := by
  induction allPosts with
  | nil => intro d hd v hv; exact hd v hv
  | cons q rest ih =>
    intro d hd v hv
    simp only [backfillThreads, List.foldl_cons] at hv
    split at hv
    · refine ih _ ?_ v hv
      intro v2 hv2
      rcases updateKeyedById_lookup_source _ _ _ _ hv2 with h1 | ⟨t, ht, hid, hveq⟩
      · exact hd v2 h1
      · subst hveq
        exact hthreadP q.root_id v2 ht hid
    · exact ih _ hd v hv

/-- A stored post survives the backfill when every thread post sharing its
id equals it (server consistency). -/
theorem backfillThreads_lookup_keep (srv : Server) (allPosts : List RawPost)
    (k : String) (v : RawPost)
    (hcons : ∀ r2 t, t ∈ srv.thread r2 → t.id = k → t = v) :
    ∀ (d : List (String × RawPost)), dictLookup d k = some v →
    dictLookup (backfillThreads srv allPosts d) k = some v := by
  induction allPosts with
  | nil => intro d h; exact h
  | cons q rest ih =>
    intro d h
    simp only [backfillThreads, List.foldl_cons]
    split
    · exact ih _ (updateKeyedById_lookup_keep _ _ _ _ h (fun t ht => hcons q.root_id t ht))
    · exact ih _ h

/-- The backfill keeps the keys duplicate-free. -/
theorem backfillThreads_nodup_keys (srv : Server) (allPosts : List RawPost)
    (d : List (String × RawPost)) (h : (d.map Prod.fst).Nodup) :
    ((backfillThreads srv allPosts d).map Prod.fst).Nodup := by
  induction allPosts generalizing d with
  | nil => exact h
  | cons q rest ih =>
    simp only [backfillThreads, List.foldl_cons]
    split
    · exact ih _ (updateKeyedById_nodup_keys _ _ h)
    · exact ih _ h

/-- The backfill keeps every value at its own id. -/
theorem backfillThreads_keyedById (srv : Server) (allPosts : List RawPost)
    (d : List (String × RawPost)) (h : keyedById d) :
    keyedById (backfillThreads srv allPosts d) := by
  induction allPosts generalizing d with
  | nil => exact h
  | cons q rest ih =>
    simp only [backfillThreads, List.foldl_cons]
    split
    · exact ih _ (updateKeyedById_keyedById _ _ h)
    · exact ih _ h

/-- The page sweep builds a dictionary with duplicate-free keys in which
every post sits at its own id. -/
theorem pageSweep_inv (srv : Server) :
    ∀ (fuel page : Nat) (allPosts : List RawPost) (d : List (String × RawPost))
      (allPosts2 : List RawPost) (d2 : List (String × RawPost)),
    (d.map Prod.fst).Nodup → keyedById d →
    pageSweep srv 100 fuel page allPosts d = some (allPosts2, d2) →
    (d2.map Prod.fst).Nodup ∧ keyedById d2 := by
  intro fuel
  induction fuel with
  | zero => intro page all d all2 d2 _ _ h; simp [pageSweep] at h
  | succ n ih =>
    intro page all d all2 d2 hn hkb h
    simp only [pageSweep] at h
    split at h
    · injection h with h
      obtain ⟨h1, h2⟩ := Prod.mk.injEq .. ▸ h
      exact ⟨by rw [← h2]; exact hn, by rw [← h2]; exact hkb⟩
    · split at h
      · injection h with h
        obtain ⟨h1, h2⟩ := Prod.mk.injEq .. ▸ h
        subst h2
        exact ⟨updateKeyedById_nodup_keys _ _ hn, updateKeyedById_keyedById _ _ hkb⟩
      · exact ih _ _ _ _ _ (updateKeyedById_nodup_keys _ _ hn)
          (updateKeyedById_keyedById _ _ hkb) h

/-- For an id-keyed dictionary, the ids of the values are the keys. -/
theorem keyedById_values_map_id (d : List (String × RawPost)) (h : keyedById d) :
    (d.map Prod.snd).map RawPost.id = d.map Prod.fst := by
  induction d with
  | nil => rfl
  | cons hd tl ih =>
    obtain ⟨k, v⟩ := hd
    have hv : v.id = k := h (k, v) (by simp)
    simp only [List.map_cons, hv]
    rw [ih (fun q hq => h q (by simp [hq]))]

/-- A successful fold over a concatenation decomposes at the seam. -/
theorem addPosts_append (env : Env) (a b : List RawPost) :
    ∀ (m0 mf : ThreadTree), addPosts env (a ++ b) m0 = .ok mf →
    ∃ mm, addPosts env a m0 = .ok mm ∧ addPosts env b mm = .ok mf := by
  induction a with
  | nil => intro m0 mf h; exact ⟨m0, rfl, h⟩
  | cons q rest ih =>
    intro m0 mf h
    simp only [List.cons_append, addPosts] at h ⊢
    cases hstep : add_post env m0 q with
    | error err => rw [hstep] at h; simp at h
    | ok m1 =>
      rw [hstep] at h
      exact ih m1 mf h

/-- A successful `add_post` resolved its files and performed the pure
dictionary mutation. -/
theorem add_post_ok_shape (env : Env) (m0 m1 : ThreadTree) (q : RawPost)
    (h : add_post env m0 q = .ok m1) :
    ∃ fs, resolveFiles env q.file_ids = .ok fs ∧
      m1 = addPostPure m0 (postDetails env fs q) := by
  unfold add_post at h
  cases hr : resolveFiles env q.file_ids with
  | error e2 => rw [hr] at h; simp at h
  | ok fs =>
    rw [hr] at h
    simp only [Except.ok.injEq] at h
    exact ⟨fs, rfl, h.symm⟩

/-- Processing a root post (empty `root_id`) leaves a full entry carrying
its own details at its id, whether it was inserted fresh or merged over a
placeholder (the merge replaces the whole entry). -/
theorem add_post_root_step (env : Env) (m0 m1 : ThreadTree) (q : RawPost)
    (hroot : q.root_id = "") (h : add_post env m0 q = .ok m1) :
    ∃ fs, resolveFiles env q.file_ids = .ok fs ∧
      dictLookup m1 q.id = some (.full (postDetails env fs q)) := by
  obtain ⟨fs, hres, hm1⟩ := add_post_ok_shape env m0 m1 q h
  refine ⟨fs, hres, ?_⟩
  subst hm1
  unfold addPostPure
  rw [if_neg (by simp [hroot])]
  cases hlk : dictLookup m0 (postDetails env fs q).id with
  | some e0 => simp [entryUpdate, dictLookup_dictSet_self]
  | none => simp [dictLookup_dictSet_self]

/-- Once an entry exists at `R` and no remaining post re-uses the id `R`,
folding the rest only appends to its replies: the entry persists, already
attached replies persist, and every remaining reply to `R` gets attached
(with its files resolved). -/
theorem addPosts_keep (env : Env) (R : String) (hR : R ≠ "") :
    ∀ (l : List RawPost) (m0 mf : ThreadTree),
    addPosts env l m0 = .ok mf → (∀ q ∈ l, q.id ≠ R) →
    ∀ e0, dictLookup m0 R = some e0 →
    ∃ e1, dictLookup mf R = some e1 ∧
      (∀ x ∈ e0.replies, x ∈ e1.replies) ∧
      (∀ q ∈ l, q.root_id = R →
        ∃ fs, resolveFiles env q.file_ids = .ok fs ∧
          postDetails env fs q ∈ e1.replies) := by
  intro l
  induction l with
  | nil =>
    intro m0 mf h _ e0 he0
    simp only [addPosts, Except.ok.injEq] at h
    subst h
    exact ⟨e0, he0, fun x hx => hx, by simp⟩
  | cons q rest ih =>
    intro m0 mf h hid e0 he0
    cases hstep : add_post env m0 q with
    | error err => simp [addPosts, hstep] at h
    | ok m1 =>
      simp only [addPosts, hstep] at h
      obtain ⟨fs, hres, hm1⟩ := add_post_ok_shape env m0 m1 q hstep
      have hqid : q.id ≠ R := hid q (by simp)
      by_cases hq : q.root_id = R
      · -- q is a reply to R: appended to the existing entry
        have hm1lk : dictLookup m1 R = some (entryAppendReply e0 (postDetails env fs q)) := by
          subst hm1
          unfold addPostPure
          rw [if_pos (by simp [hq, hR])]
          simp only [postDetails_root_id, hq]
          rw [he0]
          exact dictLookup_dictSet_self _ _ _
        obtain ⟨e1, he1, hkeep, hrep⟩ := ih m1 mf h (fun q2 hq2 => hid q2 (by simp [hq2])) _ hm1lk
        refine ⟨e1, he1, ?_, ?_⟩
        · intro x hx
          exact hkeep x (by simp [entryAppendReply_replies, hx])
        · intro q2 hq2 hq2root
          rcases List.mem_cons.mp hq2 with h1 | h1
          · subst h1
            exact ⟨fs, hres, hkeep _ (by simp [entryAppendReply_replies])⟩
          · exact hrep q2 h1 hq2root
      · -- q touches a key other than R: the entry at R is unchanged
        have hm1lk : dictLookup m1 R = some e0 := by
          subst hm1
          unfold addPostPure
          by_cases hqr : (postDetails env fs q).root_id ≠ ""
          · rw [if_pos hqr]
            have hne : q.root_id ≠ R := hq
            cases hlk : dictLookup m0 (postDetails env fs q).root_id with
            | some ex =>
              rw [dictLookup_dictSet_ne _ _ _ _ (by simpa using hne)]
              exact he0
            | none =>
              rw [dictLookup_dictSet_ne _ _ _ _ (by simpa using hne)]
              exact he0
          · rw [if_neg hqr]
            cases hlk : dictLookup m0 (postDetails env fs q).id with
            | some ex =>
              rw [dictLookup_dictSet_ne _ _ _ _ (by simpa using hqid)]
              exact he0
            | none =>
              rw [dictLookup_dictSet_ne _ _ _ _ (by simpa using hqid)]
              exact he0
        obtain ⟨e1, he1, hkeep, hrep⟩ := ih m1 mf h (fun q2 hq2 => hid q2 (by simp [hq2])) _ hm1lk
        refine ⟨e1, he1, hkeep, ?_⟩
        intro q2 hq2 hq2root
        rcases List.mem_cons.mp hq2 with h1 | h1
        · subst h1; exact absurd hq2root hq
        · exact hrep q2 h1 hq2root

/-- In a `create_at`-sorted list, a strictly later post occurs after the
split point. -/
theorem mem_suffix_of_sorted_lt (l1 l2 : List RawPost) (vR p : RawPost)
    (hsort : List.Sorted rawPostLE (l1 ++ vR :: l2))
    (hmem : p ∈ l1 ++ vR :: l2) (hlt : vR.create_at < p.create_at) : p ∈ l2 := by
  rcases List.mem_append.mp hmem with h1 | h1
  · exfalso
    have hle := (List.pairwise_append.mp hsort).2.2 p h1 vR (by simp)
    simp only [rawPostLE] at hle
    omega
  · rcases List.mem_cons.mp h1 with h2 | h2
    · subst h2
      exact absurd hlt (lt_irrefl _)
    · exact h2

/-- With duplicate-free ids, nothing after the split point re-uses the
split element's id. -/
theorem ids_ne_of_split (l1 l2 : List RawPost) (vR : RawPost)
    (hnodup : (((l1 ++ vR :: l2)).map RawPost.id).Nodup) :
    ∀ q ∈ l2, q.id ≠ vR.id := by
  rw [List.map_append, List.map_cons] at hnodup
  have h2 := (List.Nodup.of_append_right hnodup)
  have h3 := (List.nodup_cons.mp h2).1
  intro q hq heq
  exact h3 (List.mem_map.mpr ⟨q, hq, heq⟩)

/-- C3: a swept reply `p` whose root id `R` is absent from the page-swept
collection triggers the thread backfill, which merges the thread posts in
keyed by their own ids, so `R` is a key of the backfilled collection (no
orphaned reply is dropped); and after sorting and folding, the reply is
attached to the entry at `R` in the final mapping.  The server-consistency
hypotheses say: the thread endpoint for `R` returns a post with id `R`;
any thread post with id `R` is a genuine root created before `p`; any
thread post with id `p.id` is `p` itself. -/
theorem C3_thread_backfill_attaches_orphan_reply (srv : Server) (env : Env) (fuel : Nat)
    (allPosts : List RawPost) (postDict : List (String × RawPost))
    (p : RawPost) (R : String) (out : List RawPost) (m : ThreadTree)
    (hsweep : pageSweep srv 100 fuel 0 [] [] = some (allPosts, postDict))
    (hpmem : p ∈ allPosts)
    (hpdict : dictLookup postDict p.id = some p)
    (hroot : p.root_id = R) (hRne : R ≠ "")
    (habs : dictLookup postDict R = none)
    (hthread : ∃ t ∈ srv.thread R, t.id = R)
    (hgood : ∀ r2 t, t ∈ srv.thread r2 → t.id = R →
      t.root_id = "" ∧ t.create_at < p.create_at)
    (hpcons : ∀ r2 t, t ∈ srv.thread r2 → t.id = p.id → t = p)
    (hget : get_posts srv fuel = some out)
    (hfold : addPosts env out [] = .ok m) :
    dictHasKey (backfillThreads srv allPosts postDict) R = true ∧
    ∃ fs e, resolveFiles env p.file_ids = .ok fs ∧
      dictLookup m R = some e ∧ postDetails env fs p ∈ e.replies := by
  -- the backfilled collection
  set bd := backfillThreads srv allPosts postDict with hbd
  have hkey : dictHasKey bd R = true :=
    backfillThreads_root_key srv allPosts postDict p R hpmem hroot hRne hthread
  refine ⟨hkey, ?_⟩
  -- the sweep dictionary invariants
  have hinv := pageSweep_inv srv fuel 0 [] [] allPosts postDict (by simp) (by
    intro q hq; simp at hq) hsweep
  have hbd_nodup : (bd.map Prod.fst).Nodup :=
    backfillThreads_nodup_keys srv allPosts postDict hinv.1
  have hbd_kbi : keyedById bd :=
    backfillThreads_keyedById srv allPosts postDict hinv.2
  -- the sorted output
  have hout : out = sortPostsByCreateAt (bd.map Prod.snd) := by
    unfold get_posts at hget
    rw [hsweep] at hget
    simp only [Option.some.injEq] at hget
    exact hget.symm
  have hperm : List.Perm (sortPostsByCreateAt (bd.map Prod.snd)) (bd.map Prod.snd) :=
    List.perm_insertionSort rawPostLE _
  have hsort : List.Sorted rawPostLE out := by
    rw [hout]
    exact List.sorted_insertionSort rawPostLE _
  -- the value stored at R is a well-formed root older than p
  have hRvalP : ∀ v, dictLookup bd R = some v →
      (v.root_id = "" ∧ v.create_at < p.create_at) := by
    refine backfillThreads_lookup_pred srv allPosts _ R ?_ postDict ?_
    · intro r2 t ht hid
      exact hgood r2 t ht hid
    · intro v hv
      rw [habs] at hv
      cases hv
  obtain ⟨vR, hvR⟩ : ∃ vR, dictLookup bd R = some vR := by
    simpa [dictHasKey, Option.isSome_iff_exists] using hkey
  have hvRid : vR.id = R := hbd_kbi (R, vR) (dictLookup_eq_some_mem _ _ _ hvR)
  obtain ⟨hvRroot, hvRlt⟩ := hRvalP vR hvR
  -- p's own entry survives the backfill
  have hpkeep : dictLookup bd p.id = some p :=
    backfillThreads_lookup_keep srv allPosts p.id p hpcons postDict hpdict
  -- both are in the sorted output
  have hvR_out : vR ∈ out := by
    rw [hout]
    exact (List.Perm.mem_iff hperm).mpr (dictLookup_mem_values _ _ _ hvR)
  have hp_out : p ∈ out := by
    rw [hout]
    exact (List.Perm.mem_iff hperm).mpr (dictLookup_mem_values _ _ _ hpkeep)
  -- the output has duplicate-free ids
  have hout_nodup : (out.map RawPost.id).Nodup := by
    have hvals : ((bd.map Prod.snd).map RawPost.id).Nodup := by
      rw [keyedById_values_map_id bd hbd_kbi]
      exact hbd_nodup
    have hpm : List.Perm (out.map RawPost.id) ((bd.map Prod.snd).map RawPost.id) := by
      rw [hout]
      exact List.Perm.map RawPost.id hperm
    exact (List.Perm.nodup_iff hpm).mpr hvals
  -- split the output at the root
  obtain ⟨l1, l2, hsplit⟩ := List.append_of_mem hvR_out
  rw [hsplit] at hsort hp_out hout_nodup hfold
  have hp_l2 : p ∈ l2 := mem_suffix_of_sorted_lt l1 l2 vR p hsort hp_out hvRlt
  have hids : ∀ q ∈ l2, q.id ≠ R := by
    intro q hq
    rw [← hvRid]
    exact ids_ne_of_split l1 l2 vR hout_nodup q hq
  -- decompose the fold
  obtain ⟨ma, hfa, hfb⟩ := addPosts_append env l1 (vR :: l2) [] m hfold
  cases hstep : add_post env ma vR with
  | error err => rw [addPosts, hstep] at hfb; simp at hfb
  | ok mb =>
    rw [addPosts, hstep] at hfb
    obtain ⟨fs2, hres2, hlkb⟩ := add_post_root_step env ma mb vR hvRroot hstep
    rw [hvRid] at hlkb
    obtain ⟨e1, he1, hkeep, hrep⟩ :=
      addPosts_keep env R hRne l2 mb m hfb hids _ hlkb
    obtain ⟨fs, hres, hmem2⟩ := hrep p hp_l2 hroot
    exact ⟨fs, e1, hres, he1, hmem2⟩

/-- C3 witness: the one-page server `srvAB`, whose page holds only the
reply `B` while the root `A` lives in the thread endpoint: the backfill
establishes the key "A" and the final mapping attaches `B` under "A". -/
theorem C3_thread_backfill_attaches_orphan_reply_witness :
    get_posts srvAB 1 = some [rawRootA, rawReplyB] ∧
    pageSweep srvAB 100 1 0 [] [] = some ([rawReplyB], [("B", rawReplyB)]) ∧
    dictLookup [("B", rawReplyB)] "A" = none ∧
    (dictHasKey (backfillThreads srvAB [rawReplyB] [("B", rawReplyB)]) "A" = true ∧
     ∃ fs e, resolveFiles envA rawReplyB.file_ids = .ok fs ∧
       dictLookup [("A", Entry.full ((postDetails envA [] rawRootA).setReplies
         [postDetails envA [] rawReplyB]))] "A" = some e ∧
       postDetails envA fs rawReplyB ∈ e.replies) :=
  ⟨rfl, rfl, rfl,
   C3_thread_backfill_attaches_orphan_reply srvAB envA 1 [rawReplyB] [("B", rawReplyB)] rawReplyB "A"
     [rawRootA, rawReplyB]
     [("A", Entry.full ((postDetails envA [] rawRootA).setReplies
       [postDetails envA [] rawReplyB]))]
     rfl (by simp) rfl rfl (by decide) rfl
     ⟨rawRootA, by simp [srvAB], rfl⟩
     (by
       intro r2 t ht hid
       by_cases hr : r2 = "A"
       · subst hr
         simp [srvAB] at ht
         rcases ht with rfl | rfl
         · exact ⟨rfl, by decide⟩
         · exact absurd hid (by decide)
       · simp [srvAB, hr] at ht)
     (by
       intro r2 t ht hid
       by_cases hr : r2 = "A"
       · subst hr
         simp [srvAB] at ht
         rcases ht with rfl | rfl
         · exact absurd hid (by decide)
         · rfl
       · simp [srvAB, hr] at ht)
     rfl rfl⟩
